import Mathlib

/-!
# Verification of the bitcoin-block multiformats codec

Shallow embedding of `src/bitcoin-block.js` (the block-header codec and the
test-suite helpers `verifyMerkle` / `findWitnessCommitment` that live in the
same repository), together with spec-modelled definitions for the external
`bitcoin-block` / `multiformats` collaborators that the repository only calls
through their documented interfaces.

Bytes are `Nat`s below 256; byte sequences are `List Nat`.
-/

namespace BitcoinCodec

/-- Little-endian serialization of `v` into exactly `k` bytes (each `% 256`). -/
def toLE : Nat → Nat → List Nat
  | 0, _ => []
  | k + 1, v => v % 256 :: toLE k (v / 256)

/-- Little-endian deserialization of a byte list into a natural number. -/
def fromLE : List Nat → Nat
  | [] => 0
  | b :: rest => b + 256 * fromLE rest

theorem toLE_length (k v : Nat) : (toLE k v).length = k := by
  induction k generalizing v with
  | zero => rfl
  | succ k ih => simp [toLE, ih]

theorem fromLE_toLE (k v : Nat) (h : v < 256 ^ k) : fromLE (toLE k v) = v := by
  induction k generalizing v with
  | zero => simp [toLE, fromLE]; omega
  | succ k ih =>
      simp only [toLE, fromLE]
      rw [ih (v / 256) (by
        have : 256 ^ (k + 1) = 256 ^ k * 256 := by ring
        omega)]
      omega

/-- Modelled from the spec: the transaction record of the external
TransactionCodec (`src/bitcoin-tx.js` is not part of the sources; only its
interface is specified).  Each input carries an outpoint, an unlocking
script, a sequence number and an optional witness stack; each output a value
and a locking script (spec §3 TransactionRecord). -/
structure TxIn where
  prevHash : List Nat
  prevIndex : Nat
  script : List Nat
  sequence : Nat
  witness : Option (List (List Nat))
deriving DecidableEq

structure TxOut where
  value : Nat
  scriptPubKey : List Nat
deriving DecidableEq

structure TxRecord where
  version : Nat
  vin : List TxIn
  vout : List TxOut
  locktime : Nat
deriving DecidableEq

instance : Inhabited TxRecord := ⟨⟨0, [], [], 0⟩⟩

/-- Modelled from the spec: a transaction is segwit-tagged exactly when some
input carries a witness stack (spec §3: marker/flag pair present iff at least
one input has a witness stack). -/
def isSegwit (t : TxRecord) : Bool :=
  t.vin.any fun i => i.witness.isSome

/-- Modelled from the spec: compact variable-length integer encoding
(spec §4.2: values < 0xfd as 1 byte, ≤ 0xffff as 0xfd + 2 bytes,
≤ 0xffffffff as 0xfe + 4 bytes, else 0xff + 8 bytes, little-endian). -/
def compactSize (n : Nat) : List Nat :=
  if n < 0xfd then [n]
  else if n ≤ 0xffff then 0xfd :: toLE 2 n
  else if n ≤ 0xffffffff then 0xfe :: toLE 4 n
  else 0xff :: toLE 8 n

/-- Modelled from the spec: serialization of one input without witness data
(outpoint, script length, script, sequence — spec §4.2). -/
def encodeTxIn (i : TxIn) : List Nat :=
  i.prevHash ++ toLE 4 i.prevIndex ++ compactSize i.script.length ++ i.script
    ++ toLE 4 i.sequence

/-- Modelled from the spec: serialization of one output (spec §4.2). -/
def encodeTxOut (o : TxOut) : List Nat :=
  toLE 8 o.value ++ compactSize o.scriptPubKey.length ++ o.scriptPubKey

/-- Modelled from the spec: serialization of one input's witness stack
(stack item count, then each item length-prefixed — spec §4.2). -/
def encodeWitnessStack (i : TxIn) : List Nat :=
  let stack := i.witness.getD []
  compactSize stack.length ++ stack.flatMap fun item => compactSize item.length ++ item

/-- Modelled from the spec: `encode(record, \x7bwitness: bool\x7d)` of the external
TransactionCodec.  With `witness = true` and a segwit-tagged record it emits
version, marker+flag, inputs, outputs, witness stacks, lock time; with
`witness = false` (or an untagged record) marker/flag and witness stacks are
omitted (spec §4.2). -/
def txEncode (withWitness : Bool) (t : TxRecord) : List Nat :=
  toLE 4 t.version
    ++ (if withWitness && isSegwit t then [0x00, 0x01] else [])
    ++ compactSize t.vin.length ++ t.vin.flatMap encodeTxIn
    ++ compactSize t.vout.length ++ t.vout.flatMap encodeTxOut
    ++ (if withWitness && isSegwit t then t.vin.flatMap encodeWitnessStack else [])
    ++ toLE 4 t.locktime

/-- Modelled from the spec: `bitcoinTx.encodeNoWitness` — the witness-stripped
serialization (spec §4.2, `witness=false`). -/
def encodeNoWitness (t : TxRecord) : List Nat := txEncode false t

/-! ## Constants (`./constants`, not among the sources)

Modelled from the spec: the codec registry assigns two distinct numeric codec
tags, one for the block codec and one for the transaction codec (spec §6);
the test suite in the sources fixes `CODEC_TX_CODE = 0xb1` and builds
dbl-sha2-256 multihashes with the two-byte lead `0x56 0x20`. -/

def CODEC_BLOCK : String := "bitcoin-block"

def CODEC_BLOCK_CODE : Nat := 0xb0

def CODEC_TX_CODE : Nat := 0xb1

def HASH_ALG : String := "dbl-sha2-256"

/-- Modelled from the spec: a ContentIdentifier — immutable tuple of version,
codec tag and multihash bytes (spec §3); `multiformats.CID(1, code, multihash)`. -/
structure CID where
  version : Nat
  code : Nat
  multihash : List Nat
deriving DecidableEq

/-- Modelled from the spec: `multiformats.multihash.encode(digest, 'dbl-sha2-256')`
prefixes the 32-byte digest with the hash-algorithm tag `0x56` and the length
byte `0x20` (the test suite's MULTIHASH_DBLSHA2256_LEAD = "5620"). -/
def multihashEncode (digest : List Nat) : List Nat :=
  0x56 :: 0x20 :: digest

/-- Modelled from the spec: `fromHashHex` turns a display-order (hex-reversed)
hash into natural byte order, i.e. reverses the 32 bytes. -/
def fromHashHex (displayBytes : List Nat) : List Nat :=
  displayBytes.reverse

/-! ## Block header records

The porcelain record keeps the two hash fields in display order (hex-reversed
relative to the serialized byte order), as `toPorcelain` of the external
`bitcoin-block` package does. -/

/-- The six primitive header fields (spec §3 BlockHeaderRecord). -/
structure HeaderPorcelain where
  version : Nat
  previousblockhash : List Nat
  merkleroot : List Nat
  time : Nat
  bits : Nat
  nonce : Nat
deriving DecidableEq

/-- A porcelain record as handed to `encode`: the six header fields plus an
optional transaction array (`tx`). -/
structure BlockPorcelain extends HeaderPorcelain where
  tx : Option (List TxRecord)
deriving DecidableEq

/-- All six fields in serializable range: the four integers fit 32 bits and
the two hashes are 32 bytes of values below 256. -/
def validHeader (h : HeaderPorcelain) : Prop :=
  h.version < 2 ^ 32 ∧ h.time < 2 ^ 32 ∧ h.bits < 2 ^ 32 ∧ h.nonce < 2 ^ 32 ∧
    h.previousblockhash.length = 32 ∧ h.merkleroot.length = 32

instance (h : HeaderPorcelain) : Decidable (validHeader h) := by
  unfold validHeader; infer_instance

/-- Modelled from the spec: the 80-byte fixed little-endian header layout of
the external `bitcoin-block` package — version, previousBlockHash,
merkleRoot, time, bits, nonce in declared order (spec §3, §4.1); the two hash
fields are stored in display order in the porcelain, so they are reversed to
natural byte order for serialization. -/
def headerSerialize (h : HeaderPorcelain) : List Nat :=
  toLE 4 h.version ++ h.previousblockhash.reverse ++ h.merkleroot.reverse
    ++ toLE 4 h.time ++ toLE 4 h.bits ++ toLE 4 h.nonce

/-- Modelled from the spec: `BitcoinBlock.fromPorcelain(p).encode()` — the
header bytes followed by the serialized transaction list when the porcelain
carries one (the header-only behaviour of the repository's `encode` comes
from it nulling `tx` first, not from this library function). -/
def blockEncodeLib (p : BlockPorcelain) : List Nat :=
  headerSerialize p.toHeaderPorcelain
    ++ (match p.tx with
        | some txs => txs.flatMap (txEncode true)
        | none => [])

/-- `encode` of `src/bitcoin-block.js` (line 10): copies the record with
`tx` forced to `null` via `Object.assign(\x7b\x7d, obj, \x7b tx: null \x7d)` and
serializes it through the external library. -/
def encode (p : BlockPorcelain) : List Nat :=
  blockEncodeLib { p with tx := none }

/-- Modelled from the spec: `BitcoinBlock.decodeHeaderOnly(buf).toPorcelain()`
— reads the six fields from the first 80 bytes, hash fields hex-reversed
into display order (spec §4.1). -/
def decodeHeaderOnlyPorcelain (buf : List Nat) : HeaderPorcelain where
  version := fromLE (buf.take 4)
  previousblockhash := ((buf.drop 4).take 32).reverse
  merkleroot := ((buf.drop 36).take 32).reverse
  time := fromLE ((buf.drop 68).take 4)
  bits := fromLE ((buf.drop 72).take 4)
  nonce := fromLE ((buf.drop 76).take 4)

/-- The record returned by `decode`: the six porcelain fields plus the two
derived ContentIdentifiers (`parent`, and `tx` holding the transactions
root). -/
structure DecodedHeader extends HeaderPorcelain where
  parent : CID
  tx : CID
deriving DecidableEq

/-- `decode` of `src/bitcoin-block.js` (lines 19–31), after the input guard:
decodes the header fields, then inserts `parent` built from the hex-reversed
previousblockhash under the dbl-sha2-256 multihash tag with the block codec
tag, and `tx` built from the hex-reversed merkleroot with the transaction
codec tag. -/
def decodeFull (buf : List Nat) : DecodedHeader :=
  let p := decodeHeaderOnlyPorcelain buf
  { p with
    parent := ⟨1, CODEC_BLOCK_CODE, multihashEncode (fromHashHex p.previousblockhash)⟩
    tx := ⟨1, CODEC_TX_CODE, multihashEncode (fromHashHex p.merkleroot)⟩ }

/-! ## JavaScript value model for the input guards -/

/-- The JavaScript values relevant to the two guards: primitives, `null`,
`undefined`, functions, plain records, and `Uint8Array`-family instances
(`bytes ctor data`, with `ctor` the `constructor.name` — "Uint8Array" for a
direct instance, "Buffer" for a Node Buffer; both satisfy
`instanceof Uint8Array`). -/
inductive JSValue where
  | num : Int → JSValue
  | str : String → JSValue
  | boolean : Bool → JSValue
  | undefined : JSValue
  | jsNull : JSValue
  | func : JSValue
  | objRecord : BlockPorcelain → JSValue
  | bytes : String → List Nat → JSValue
deriving DecidableEq

/-- JavaScript's `typeof` operator on the modelled values; note
`typeof null === "object"`. -/
def jsTypeof : JSValue → String
  | .num _ => "number"
  | .str _ => "string"
  | .boolean _ => "boolean"
  | .undefined => "undefined"
  | .jsNull => "object"
  | .func => "function"
  | .objRecord _ => "object"
  | .bytes _ _ => "object"

/-- `v instanceof Uint8Array`: true exactly for the byte-sequence values
(direct Uint8Array and subclasses such as Buffer). -/
def isByteSeq : JSValue → Bool
  | .bytes _ _ => true
  | _ => false

/-- `v instanceof Uint8Array && v.constructor.name === "Uint8Array"`:
the exact acceptance test of `decode` (line 16). -/
def isDirectUint8Array : JSValue → Bool
  | .bytes ctor _ => ctor = "Uint8Array"
  | _ => false

inductive EncodeResult where
  /-- the guard threw `TypeError(msg)` before any serialization -/
  | typeError : String → EncodeResult
  /-- the guard passed on a porcelain record and serialization produced bytes -/
  | ok : List Nat → EncodeResult
  /-- the guard passed on a non-record value (e.g. `null`): serialization is
  attempted and its outcome is decided inside the external library -/
  | libraryAttempt : EncodeResult
deriving DecidableEq

/-- `encode` of `src/bitcoin-block.js` (lines 6–11) on an arbitrary
JavaScript value: the `typeof obj !== "object"` guard, then the
serialization of line 10. -/
def encodeJS (v : JSValue) : EncodeResult :=
  if jsTypeof v ≠ "object" then .typeError "Can only encode() an object"
  else match v with
    | .objRecord p => .ok (encode p)
    | _ => .libraryAttempt

inductive DecodeResult where
  /-- the guard threw `TypeError(msg)` -/
  | typeError : String → DecodeResult
  /-- the external parser failed on a buffer shorter than the 80-byte header -/
  | shortInput : DecodeResult
  /-- successful decode -/
  | ok : DecodedHeader → DecodeResult
deriving DecidableEq

/-- `decode` of `src/bitcoin-block.js` (lines 15–32) on an arbitrary
JavaScript value: the direct-Uint8Array guard of line 16, then the
header-only decode (the external parser needs the first 80 bytes and no
more). -/
def decodeJS (v : JSValue) : DecodeResult :=
  match v with
  | .bytes ctor data =>
      if ctor = "Uint8Array" then
        if data.length < 80 then .shortInput else .ok (decodeFull (data.take 80))
      else .typeError "Can only decode() a Buffer or Uint8Array"
  | _ => .typeError "Can only decode() a Buffer or Uint8Array"

/-! ## Merkle tree builder

The builder itself lives in the external packages; it is modelled from the
spec (§4.3).  The expected-node-count computation is the test suite's
`verifyMerkle` (source lines 263–268). -/

section Merkle

variable {H : Type}

/-- Modelled from the spec: one merkle level step — pair consecutive nodes
left-to-right, duplicating the last node when the count is odd, combining
each pair with `node` (= doubleHash(left ‖ right), kept abstract as the hash
provider is an external collaborator, spec §6). -/
def nextLevel (node : H → H → H) : List H → List H
  | [] => []
  | [a] => [node a a]
  | a :: b :: rest => node a b :: nextLevel node rest

/-- Modelled from the spec: all nodes the builder emits above the leaf level,
bottom-up, until a level of one node (the root) has been emitted.  The
`fuel` argument bounds the number of rounds; each round at least halves the
level size, so `level.length` rounds always suffice. -/
def levelsAbove (node : H → H → H) : Nat → List H → List H
  | 0, _ => []
  | fuel + 1, level =>
      if level.length ≤ 1 then []
      else
        let nl := nextLevel node level
        nl ++ levelsAbove node fuel nl

/-- Modelled from the spec: the full lazy node sequence of the
MerkleTreeBuilder — the leaves, then every internal level bottom-up, root
included (spec §4.3). -/
def allNodes (node : H → H → H) (leaves : List H) : List H :=
  leaves ++ levelsAbove node leaves.length leaves

theorem nextLevel_length (node : H → H → H) (l : List H) :
    (nextLevel node l).length = (l.length + 1) / 2 := by
  induction l using nextLevel.induct node with
  | case1 => simp [nextLevel]
  | case2 a => simp [nextLevel]
  | case3 a b rest ih => simp [nextLevel, ih]; omega

end Merkle

/-- `verifyMerkle`'s expected node count (source lines 263–268): starting
from `last`, while `last > 1` replace it by `ceil(last / 2)` and add it to
the running total. -/
def merkleCountFrom (last : Nat) : Nat :=
  if last > 1 then (last + 1) / 2 + merkleCountFrom ((last + 1) / 2)
  else 0
decreasing_by omega

/-- `expectedNodes` of `verifyMerkle` (source lines 263–268): the leaf count
plus every successive level size down to 1. -/
def expectedNodes (n : Nat) : Nat := n + merkleCountFrom n

/-! ## Witness commitment search (test suite, source lines 308–316) -/

/-- The fixed 6-byte prefix `6a24aa21a9ed` (the script is compared at the
hex-string level in the source; one hex digit pair per byte). -/
def witnessCommitmentPrefix : List Nat := [0x6a, 0x24, 0xaa, 0x21, 0xa9, 0xed]

/-- The per-output test of `findWitnessCommitment`: script exactly 38 bytes
(76 hex characters) and starting with the fixed prefix. -/
def isWitnessCommitmentScript (spk : List Nat) : Bool :=
  spk.length = 38 && spk.take 6 = witnessCommitmentPrefix

/-- The scan over the coinbase outputs: first match wins, its script bytes
from offset 6 on (hex characters from offset 12 on) are returned. -/
def findWitnessCommitmentScan : List TxOut → Option (List Nat)
  | [] => none
  | v :: rest =>
      if isWitnessCommitmentScript v.scriptPubKey then some (v.scriptPubKey.drop 6)
      else findWitnessCommitmentScan rest

/-- A decoded block as the test data presents it: a transaction list whose
head is the coinbase. -/
structure BlockData where
  tx : List TxRecord

/-- `findWitnessCommitment` (source lines 308–316): scans the output scripts
of `block.tx[0]` for a 38-byte script with the `6a24aa21a9ed` prefix and
returns its trailing 32 bytes, `undefined` (here `none`) when no output
matches. -/
def findWitnessCommitment (block : BlockData) : Option (List Nat) :=
  findWitnessCommitmentScan (block.tx.headI).vout

/-! ## Heap model for the frame claim

`encode` and `decode` allocate fresh objects (`Object.assign` with a fresh
target, `Buffer.from` copy) and never write to their inputs; the heap model
makes that explicit: a heap is a list of cells, references are indices, and
each operation returns the heap it leaves behind. -/

/-- `Object.assign(target, obj, \x7b tx: null \x7d)` builds `target` from
`obj`'s fields with `tx` overridden; `encode` passes a fresh empty object as
the target, so the merged record is a new allocation. -/
def objectAssignTxNull (obj : BlockPorcelain) : BlockPorcelain :=
  { obj with tx := none }

/-- `encode` acting on a heap of porcelain records: reads the caller's record
at `r`, allocates the merged record (fresh `Object.assign` target) and
serializes it.  Returns the final heap and the bytes. -/
def encodeOnHeap (h : List BlockPorcelain) (r : Nat) :
    List BlockPorcelain × List Nat :=
  let obj := h.getD r ⟨⟨0, [], [], 0, 0, 0⟩, none⟩
  let merged := objectAssignTxNull obj
  (h ++ [merged], blockEncodeLib merged)

/-- `Buffer.from(buf)`: allocates a copy of the cell at `r` at a fresh
address; the pair is the new heap and the fresh reference. -/
def bufferFrom (h : List (List Nat)) (r : Nat) : List (List Nat) × Nat :=
  (h ++ [h.getD r []], h.length)

/-- `decode` acting on a heap of byte buffers: copies the input via
`Buffer.from`, then parses the copy.  Returns the final heap and the decoded
record. -/
def decodeOnHeap (h : List (List Nat)) (r : Nat) :
    List (List Nat) × DecodedHeader :=
  let (h1, r1) := bufferFrom h r
  (h1, decodeFull ((h1.getD r1 []).take 80))

/-! ## Helper lemmas -/

theorem take_len {l₁ l₂ : List Nat} {n : Nat} (h : l₁.length = n) :
    (l₁ ++ l₂).take n = l₁ := by
  subst h; exact List.take_left l₁ l₂

theorem drop_len {l₁ l₂ : List Nat} {n : Nat} (h : l₁.length = n) :
    (l₁ ++ l₂).drop n = l₂ := by
  subst h; exact List.drop_left l₁ l₂

/-- Decoding the header serialization of any valid porcelain (with arbitrary
trailing bytes) recovers the six fields. -/
theorem decode_headerSerialize (h : HeaderPorcelain) (hv : validHeader h)
    (rest : List Nat) :
    decodeHeaderOnlyPorcelain (headerSerialize h ++ rest) = h := by
  obtain ⟨hver, htime, hbits, hnonce, hprev, hmerk⟩ := hv
  have hprev' : h.previousblockhash.reverse.length = 32 := by
    rw [List.length_reverse]; exact hprev
  have hmerk' : h.merkleroot.reverse.length = 32 := by
    rw [List.length_reverse]; exact hmerk
  set buf := headerSerialize h ++ rest with hbuf
  have hassoc : buf = toLE 4 h.version ++ (h.previousblockhash.reverse ++
      (h.merkleroot.reverse ++ (toLE 4 h.time ++ (toLE 4 h.bits ++
      (toLE 4 h.nonce ++ rest))))) := by
    simp [hbuf, headerSerialize, List.append_assoc]
  have hd4 : buf.drop 4 = h.previousblockhash.reverse ++
      (h.merkleroot.reverse ++ (toLE 4 h.time ++ (toLE 4 h.bits ++
      (toLE 4 h.nonce ++ rest)))) := by
    rw [hassoc]; exact drop_len (toLE_length 4 _)
  have hd36 : buf.drop 36 = h.merkleroot.reverse ++ (toLE 4 h.time ++
      (toLE 4 h.bits ++ (toLE 4 h.nonce ++ rest))) := by
    have : buf.drop 36 = (buf.drop 4).drop 32 := by
      rw [List.drop_drop]
    rw [this, hd4]; exact drop_len hprev'
  have hd68 : buf.drop 68 = toLE 4 h.time ++ (toLE 4 h.bits ++
      (toLE 4 h.nonce ++ rest)) := by
    have : buf.drop 68 = (buf.drop 36).drop 32 := by
      rw [List.drop_drop]
    rw [this, hd36]; exact drop_len hmerk'
  have hd72 : buf.drop 72 = toLE 4 h.bits ++ (toLE 4 h.nonce ++ rest) := by
    have : buf.drop 72 = (buf.drop 68).drop 4 := by
      rw [List.drop_drop]
    rw [this, hd68]; exact drop_len (toLE_length 4 _)
  have hd76 : buf.drop 76 = toLE 4 h.nonce ++ rest := by
    have : buf.drop 76 = (buf.drop 72).drop 4 := by
      rw [List.drop_drop]
    rw [this, hd72]; exact drop_len (toLE_length 4 _)
  have h256 : (256 : Nat) ^ 4 = 2 ^ 32 := by norm_num
  unfold decodeHeaderOnlyPorcelain
  cases h with
  | mk version previousblockhash merkleroot time bits nonce =>
      simp only [HeaderPorcelain.mk.injEq]
      refine ⟨?_, ?_, ?_, ?_, ?_, ?_⟩
      · rw [hassoc, take_len (toLE_length 4 _), fromLE_toLE]
        rw [h256]; exact hver
      · rw [hd4, take_len hprev', List.reverse_reverse]
      · rw [hd36, take_len hmerk', List.reverse_reverse]
      · rw [hd68, take_len (toLE_length 4 _), fromLE_toLE]
        rw [h256]; exact htime
      · rw [hd72, take_len (toLE_length 4 _), fromLE_toLE]
        rw [h256]; exact hbits
      · rw [hd76, take_len (toLE_length 4 _), fromLE_toLE]
        rw [h256]; exact hnonce

/-- The repository's `encode` only ever serializes the header. -/
theorem encode_eq_headerSerialize (p : BlockPorcelain) :
    encode p = headerSerialize p.toHeaderPorcelain := by
  simp [encode, blockEncodeLib]

/-- A valid header serializes to exactly 80 bytes. -/
theorem encode_length (p : BlockPorcelain) (hv : validHeader p.toHeaderPorcelain) :
    (encode p).length = 80 := by
  obtain ⟨-, -, -, -, hprev, hmerk⟩ := hv
  rw [encode_eq_headerSerialize]
  simp [headerSerialize, toLE_length, hprev, hmerk]

/-! ## Claim theorems -/

/-- C1: for every valid block-header record, `encode` produces 80 bytes and
decoding them yields a record equal to the original on the six primitive
fields (version, previousBlockHash, merkleRoot, time, bits, nonce); the two
derived fields are excluded from the comparison. -/
theorem header_roundtrip (p : BlockPorcelain)
    (hv : validHeader p.toHeaderPorcelain) :
    (encode p).length = 80 ∧
      (decodeFull (encode p)).toHeaderPorcelain = p.toHeaderPorcelain := by
  refine ⟨encode_length p hv, ?_⟩
  have : (decodeFull (encode p)).toHeaderPorcelain
      = decodeHeaderOnlyPorcelain (encode p) := rfl
  rw [this, encode_eq_headerSerialize, ← List.append_nil
    (headerSerialize p.toHeaderPorcelain)]
  exact decode_headerSerialize p.toHeaderPorcelain hv []

/-- C1 witness: the round trip evaluated at a concrete valid header. -/
theorem header_roundtrip_witness :
    (encode ⟨⟨1, List.replicate 32 0x12, List.replicate 32 0x34,
        1234567890, 0x1d00ffff, 99⟩, none⟩).length = 80 ∧
      (decodeFull (encode ⟨⟨1, List.replicate 32 0x12, List.replicate 32 0x34,
        1234567890, 0x1d00ffff, 99⟩, none⟩)).toHeaderPorcelain
      = (⟨⟨1, List.replicate 32 0x12, List.replicate 32 0x34,
        1234567890, 0x1d00ffff, 99⟩, none⟩ : BlockPorcelain).toHeaderPorcelain :=
  header_roundtrip _ (by decide)

/-- C2 counterexample: on a concrete accepted 80-byte input, the decoded
record's transactions-root ContentIdentifier does NOT carry the block codec
tag (it carries the transaction codec tag `0xb1`), refuting the claim that
both derived identifiers are wrapped with the block codec tag. -/
theorem decode_links_counterexample :
    decodeJS (.bytes "Uint8Array" (List.replicate 80 0))
      = .ok (decodeFull (List.replicate 80 0)) ∧
    (decodeFull (List.replicate 80 0)).tx.code ≠ CODEC_BLOCK_CODE ∧
    (decodeFull (List.replicate 80 0)).tx.code = CODEC_TX_CODE := by
  decide

/-- C2 amended: every accepted byte sequence decodes to a record whose
`parent` is the dbl-sha2-256 multihash of the hex-reversed previousblockhash
wrapped with the BLOCK codec tag, and whose transactions root (`tx`) is the
dbl-sha2-256 multihash of the hex-reversed merkleroot wrapped with the
TRANSACTION codec tag — the two tags being distinct. -/
theorem decode_links (d : List Nat) (h : 80 ≤ d.length) :
    ∃ r, decodeJS (.bytes "Uint8Array" d) = .ok r ∧
      r.parent = ⟨1, CODEC_BLOCK_CODE,
        multihashEncode (fromHashHex r.previousblockhash)⟩ ∧
      r.tx = ⟨1, CODEC_TX_CODE, multihashEncode (fromHashHex r.merkleroot)⟩ ∧
      CODEC_BLOCK_CODE ≠ CODEC_TX_CODE := by
  refine ⟨decodeFull (d.take 80), ?_, rfl, rfl, by decide⟩
  simp [decodeJS, Nat.not_lt.mpr h]

/-- C2 amended witness: the decoded links at a concrete 80-byte input. -/
theorem decode_links_witness :
    ∃ r, decodeJS (.bytes "Uint8Array" (List.replicate 80 3)) = .ok r ∧
      r.parent = ⟨1, CODEC_BLOCK_CODE,
        multihashEncode (fromHashHex r.previousblockhash)⟩ ∧
      r.tx = ⟨1, CODEC_TX_CODE, multihashEncode (fromHashHex r.merkleroot)⟩ ∧
      CODEC_BLOCK_CODE ≠ CODEC_TX_CODE :=
  decode_links (List.replicate 80 3) (by decide)

/-- C3: for a non-segwit transaction (no input carries a witness stack), the
witness-inclusive and witness-stripped serializations are byte-identical. -/
theorem encode_nonsegwit_eq (t : TxRecord)
    (h : ∀ i ∈ t.vin, i.witness = none) :
    txEncode true t = encodeNoWitness t := by
  have hseg : isSegwit t = false := by
    simp only [isSegwit, List.any_eq_false]
    intro i hi
    simp [h i hi]
  simp [txEncode, encodeNoWitness, hseg]

/-- C3 witness: a concrete one-in/one-out legacy transaction encodes
identically with and without witness data. -/
theorem encode_nonsegwit_eq_witness :
    txEncode true ⟨2, [⟨List.replicate 32 0xab, 0, [0x51], 0xffffffff, none⟩],
        [⟨5000, [0x6a]⟩], 0⟩
      = encodeNoWitness ⟨2, [⟨List.replicate 32 0xab, 0, [0x51], 0xffffffff, none⟩],
        [⟨5000, [0x6a]⟩], 0⟩ :=
  encode_nonsegwit_eq _ (by decide)

/-- The internal-node count above a level equals `verifyMerkle`'s running
sum, provided the fuel covers the level size. -/
theorem levelsAbove_length {H : Type} (node : H → H → H) :
    ∀ (fuel : Nat) (level : List H), level.length ≤ fuel →
      (levelsAbove node fuel level).length = merkleCountFrom level.length := by
  intro fuel
  induction fuel with
  | zero =>
      intro level hlen
      have : level.length = 0 := Nat.le_zero.mp hlen
      rw [merkleCountFrom]
      simp [levelsAbove, this]
  | succ fuel ih =>
      intro level hlen
      by_cases hone : level.length ≤ 1
      · rw [merkleCountFrom, if_neg (by omega)]
        simp [levelsAbove, hone]
      · have hlen2 : 2 ≤ level.length := by omega
        have hnext : (nextLevel node level).length = (level.length + 1) / 2 :=
          nextLevel_length node level
        have hfuel : (nextLevel node level).length ≤ fuel := by omega
        rw [merkleCountFrom]
        simp only [levelsAbove, if_neg hone, List.length_append, ih _ hfuel, hnext]
        rw [if_pos (by omega)]

/-- C4: for every leaf sequence of length N > 1, the total number of nodes
the merkle builder emits (leaves plus all internal levels, root included)
equals N plus the sum of the successive level sizes obtained by repeatedly
taking ceil(s/2) down to 1 — the `expectedNodes` count of `verifyMerkle`. -/
theorem merkle_node_count {H : Type} (node : H → H → H) (leaves : List H)
    (_h : 1 < leaves.length) :
    (allNodes node leaves).length = expectedNodes leaves.length := by
  unfold allNodes expectedNodes
  rw [List.length_append, levelsAbove_length node leaves.length leaves le_rfl]

/-- C4 witness: the node count at three concrete leaves (3 leaves, a level
of 2, the root: 6 nodes in total). -/
theorem merkle_node_count_witness :
    (allNodes Nat.add [10, 20, 30]).length = expectedNodes 3 ∧
      expectedNodes 3 = 6 := by
  refine ⟨merkle_node_count Nat.add [10, 20, 30] (by decide), ?_⟩
  have h1 : merkleCountFrom 1 = 0 := by rw [merkleCountFrom]; norm_num
  have h2 : merkleCountFrom 2 = 1 := by rw [merkleCountFrom]; norm_num [h1]
  have h3 : merkleCountFrom 3 = 3 := by rw [merkleCountFrom]; norm_num [h2]
  rw [expectedNodes, h3]

theorem findWitnessCommitmentScan_none_iff (l : List TxOut) :
    findWitnessCommitmentScan l = none ↔
      ∀ v ∈ l, isWitnessCommitmentScript v.scriptPubKey = false := by
  induction l with
  | nil => simp [findWitnessCommitmentScan]
  | cons v rest ih =>
      by_cases hv : isWitnessCommitmentScript v.scriptPubKey
      · simp [findWitnessCommitmentScan, hv]
      · simp only [findWitnessCommitmentScan, if_neg hv, ih,
          List.mem_cons, forall_eq_or_imp, Bool.not_eq_true] at *
        simp [hv]

theorem findWitnessCommitmentScan_some (l : List TxOut) (r : List Nat) :
    findWitnessCommitmentScan l = some r →
      ∃ v ∈ l, isWitnessCommitmentScript v.scriptPubKey = true ∧
        r = v.scriptPubKey.drop 6 := by
  induction l with
  | nil => simp [findWitnessCommitmentScan]
  | cons v rest ih =>
      by_cases hv : isWitnessCommitmentScript v.scriptPubKey
      · simp [findWitnessCommitmentScan, hv]
        intro hr
        exact Or.inl hr.symm
      · simp only [findWitnessCommitmentScan, if_neg hv]
        intro hr
        obtain ⟨w, hw, hws, hwr⟩ := ih hr
        exact ⟨w, List.mem_cons_of_mem v hw, hws, hwr⟩

/-- C5: `findWitnessCommitment` scans the coinbase's output scripts; it
returns `none` exactly when no output script is 38 bytes long with first six
bytes `6a 24 aa 21 a9 ed`, and whenever it returns a value, that value is
the trailing 32 bytes (offsets 6–37) of such a matching output script. -/
theorem find_witness_commitment_spec (b : BlockData) :
    (findWitnessCommitment b = none ↔
      ∀ v ∈ (b.tx.headI).vout,
        isWitnessCommitmentScript v.scriptPubKey = false) ∧
    (∀ r, findWitnessCommitment b = some r →
      ∃ v ∈ (b.tx.headI).vout,
        v.scriptPubKey.length = 38 ∧
        v.scriptPubKey.take 6 = witnessCommitmentPrefix ∧
        r = v.scriptPubKey.drop 6 ∧ r.length = 32) := by
  constructor
  · exact findWitnessCommitmentScan_none_iff _
  · intro r hr
    obtain ⟨v, hv, hvs, hvr⟩ := findWitnessCommitmentScan_some _ r hr
    simp only [isWitnessCommitmentScript, Bool.and_eq_true, decide_eq_true_eq]
        at hvs
    refine ⟨v, hv, hvs.1, hvs.2, hvr, ?_⟩
    rw [hvr, List.length_drop, hvs.1]

/-- C5 witness: a coinbase with one non-matching and one matching output;
the commitment extracted is the matching script's trailing 32 bytes. -/
theorem find_witness_commitment_spec_witness :
    ∃ v ∈ (((⟨[⟨1, [], [⟨0, [0x6a]⟩,
        ⟨0, witnessCommitmentPrefix ++ List.replicate 32 7⟩], 0⟩]⟩ :
          BlockData).tx.headI)).vout,
      v.scriptPubKey.length = 38 ∧
      v.scriptPubKey.take 6 = witnessCommitmentPrefix ∧
      List.replicate 32 7 = v.scriptPubKey.drop 6 ∧
      (List.replicate 32 (7 : Nat)).length = 32 :=
  (find_witness_commitment_spec _).2 (List.replicate 32 7) (by decide)

/-- C6: the header codec never serializes transaction lists — two records
that agree on the six header fields produce identical bytes regardless of
their `tx` arrays, and (for valid headers) those bytes are exactly 80. -/
theorem encode_ignores_tx (p1 p2 : BlockPorcelain)
    (h : p1.toHeaderPorcelain = p2.toHeaderPorcelain) :
    encode p1 = encode p2 ∧
      (validHeader p1.toHeaderPorcelain → (encode p1).length = 80) := by
  constructor
  · rw [encode_eq_headerSerialize, encode_eq_headerSerialize, h]
  · exact encode_length p1

/-- C6 witness: a record carrying a full transaction array encodes to the
same 80 bytes as the record with no transactions. -/
theorem encode_ignores_tx_witness :
    encode ⟨⟨1, List.replicate 32 2, List.replicate 32 3, 7, 8, 9⟩,
        some [⟨1, [], [⟨50, [0x51]⟩], 0⟩]⟩
      = encode ⟨⟨1, List.replicate 32 2, List.replicate 32 3, 7, 8, 9⟩, none⟩ ∧
    (validHeader (⟨⟨1, List.replicate 32 2, List.replicate 32 3, 7, 8, 9⟩,
        some [⟨1, [], [⟨50, [0x51]⟩], 0⟩]⟩ : BlockPorcelain).toHeaderPorcelain →
      (encode ⟨⟨1, List.replicate 32 2, List.replicate 32 3, 7, 8, 9⟩,
        some [⟨1, [], [⟨50, [0x51]⟩], 0⟩]⟩).length = 80) :=
  encode_ignores_tx _ _ (by decide)

/-- C7 counterexample: `null` is not a structured record, yet it passes the
`typeof obj !== "object"` guard (because `typeof null === "object"` in
JavaScript), so serialization IS attempted instead of a TypeError being
thrown before it — refuting the claim for the input `null`. -/
theorem encode_guard_counterexample :
    jsTypeof JSValue.jsNull = "object" ∧
      encodeJS JSValue.jsNull = EncodeResult.libraryAttempt := by
  decide

/-- C7 amended: `encode` throws its TypeError exactly for the inputs whose
JavaScript `typeof` is not `"object"` — numbers, strings, booleans,
`undefined` (a missing argument) and functions are rejected before any
serialization; `null`, whose `typeof` is `"object"`, is not. -/
theorem encode_guard (v : JSValue) :
    encodeJS v = EncodeResult.typeError "Can only encode() an object" ↔
      jsTypeof v ≠ "object" := by
  cases v <;> simp [encodeJS, jsTypeof]

/-- C7 amended witness: a number is rejected with the TypeError. -/
theorem encode_guard_witness :
    encodeJS (JSValue.num 3)
      = EncodeResult.typeError "Can only encode() an object" :=
  (encode_guard (JSValue.num 3)).mpr (by decide)

/-- C8: `decode` throws its TypeError on every value that is not a byte
sequence, and on accepted byte sequences the result depends only on the
first 80 bytes — trailing transaction data is never read nor required. -/
theorem decode_guard_and_header_only :
    (∀ v, isByteSeq v = false →
      decodeJS v = DecodeResult.typeError "Can only decode() a Buffer or Uint8Array") ∧
    (∀ d1 d2 : List Nat, d1.take 80 = d2.take 80 →
      decodeJS (.bytes "Uint8Array" d1) = decodeJS (.bytes "Uint8Array" d2)) := by
  constructor
  · intro v hv
    cases v <;> simp_all [decodeJS, isByteSeq]
  · intro d1 d2 htake
    have hlen : (d1.take 80).length = (d2.take 80).length := by rw [htake]
    simp only [List.length_take] at hlen
    have : d1.length < 80 ↔ d2.length < 80 := by omega
    simp only [decodeJS, if_pos rfl, htake]
    by_cases h1 : d1.length < 80
    · rw [if_pos h1, if_pos (this.mp h1)]
    · rw [if_neg h1, if_neg (fun h2 => h1 (this.mpr h2))]

/-- C8 witness: a string input is rejected; appending trailing bytes past
the 80-byte header leaves the decode result unchanged. -/
theorem decode_guard_and_header_only_witness :
    decodeJS (JSValue.str "x")
        = DecodeResult.typeError "Can only decode() a Buffer or Uint8Array" ∧
      decodeJS (.bytes "Uint8Array" (List.replicate 80 1))
        = decodeJS (.bytes "Uint8Array" (List.replicate 80 1 ++ [5, 6, 7])) :=
  ⟨decode_guard_and_header_only.1 _ (by decide),
   decode_guard_and_header_only.2 _ _ (by decide)⟩

/-- C9: both operations leave their inputs unchanged — `encode` reads the
caller's record through a fresh `Object.assign` target, so the cell holding
the record (its `tx` field included) is intact afterwards, and `decode`
copies the buffer via `Buffer.from` before parsing, so the input bytes are
intact afterwards. -/
theorem codec_frame :
    (∀ (h : List BlockPorcelain) (r : Nat), r < h.length →
      ((encodeOnHeap h r).1).get? r = h.get? r) ∧
    (∀ (h : List (List Nat)) (r : Nat), r < h.length →
      ((decodeOnHeap h r).1).get? r = h.get? r) := by
  constructor
  · intro h r hr
    simp only [encodeOnHeap, List.get?_eq_getElem?]
    exact List.getElem?_append_left hr
  · intro h r hr
    simp only [decodeOnHeap, bufferFrom, List.get?_eq_getElem?]
    exact List.getElem?_append_left hr

/-- C9 witness: concrete one-cell heaps are untouched by both operations. -/
theorem codec_frame_witness :
    ((encodeOnHeap [⟨⟨1, [], [], 2, 3, 4⟩, some []⟩] 0).1).get? 0
        = [(⟨⟨1, [], [], 2, 3, 4⟩, some []⟩ : BlockPorcelain)].get? 0 ∧
      ((decodeOnHeap [[9, 9, 9]] 0).1).get? 0 = [[9, 9, 9]].get? 0 :=
  ⟨codec_frame.1 _ 0 (by decide), codec_frame.2 _ 0 (by decide)⟩

/-- C10: `decode` accepts only direct `Uint8Array` instances — every value
whose constructor is not exactly `Uint8Array`, including Node `Buffer`
instances (byte sequences named in the error message), gets the TypeError
rather than a decode. -/
theorem decode_rejects_non_direct (v : JSValue)
    (h : isDirectUint8Array v = false) :
    decodeJS v = DecodeResult.typeError "Can only decode() a Buffer or Uint8Array" := by
  cases v with
  | bytes ctor data =>
      simp only [isDirectUint8Array, decide_eq_false_iff_not] at h
      simp [decodeJS, h]
  | _ => rfl

/-- C10 witness: a Node Buffer (a byte sequence whose constructor is
`Buffer`) is rejected with the TypeError. -/
theorem decode_rejects_non_direct_witness :
    isByteSeq (JSValue.bytes "Buffer" (List.replicate 80 0)) = true ∧
      decodeJS (JSValue.bytes "Buffer" (List.replicate 80 0))
        = DecodeResult.typeError "Can only decode() a Buffer or Uint8Array" :=
  ⟨by decide, decode_rejects_non_direct _ (by decide)⟩

end BitcoinCodec
